import Mathlib

/-!
Verification of the AutoDuty backend's working-copy edit tracking, diff
generation, grep, path resolution, event bus, sandbox budget and
remediation-pipeline state machine, shallowly embedded from the Python
sources (src/agents/repo_context.py, src/agents/tools.py,
src/streaming/event_bus.py, src/sandbox/modal_runner.py, src/app.py,
src/agents/investigator.py).
-/

namespace AutoDuty

/-! ## String helpers mirroring Python primitives -/

/-- Python substring containment `sub in s`, on character lists.
The empty string is contained in every string, as in Python. -/
def listContainsInfix (sub l : List Char) : Bool :=
  l.tails.any (fun t => sub.isPrefixOf t)

/-- Python `sub in s` on strings. -/
def strContains (s sub : String) : Bool :=
  listContainsInfix sub.data s.data

/-- Replace the first occurrence of `sub` by `rep` in `l`; Python
`str.replace(sub, rep, 1)` semantics (an empty `sub` matches at index 0). -/
def replaceFirstList (rep sub : List Char) : List Char → List Char
  | [] => if sub.isEmpty then rep else []
  | c :: cs =>
    if sub.isPrefixOf (c :: cs) then rep ++ (c :: cs).drop sub.length
    else c :: replaceFirstList rep sub cs

/-- Python `s.replace(old, new, 1)`. -/
def pyReplaceFirst (s old new : String) : String :=
  String.mk (replaceFirstList new.data old.data s.data)

/-- Python `str.startswith(pre)`: character-level prefix test.
Used by `RepoContext._resolve`'s containment check (repo_context.py:97). -/
def pyStartsWith (s pre : String) : Bool :=
  pre.data.isPrefixOf s.data

/-- Python `line.rstrip()`: drop trailing whitespace (repo_context.py:182). -/
def pyRstrip (s : String) : String :=
  String.mk (s.data.reverse.dropWhile Char.isWhitespace).reverse

/-- Python `"\n".join(lines)`. -/
def joinNL (lines : List String) : String :=
  String.intercalate "\n" lines

/-- Python `str.splitlines(keepends=True)` restricted to the newline
character, which is the only line terminator the tracked file contents
use in this model. -/
def splitLinesKeep (s : String) : List String :=
  go s.data []
where
  go : List Char → List Char → List String
    | [], acc => if acc.isEmpty then [] else [String.mk acc.reverse]
    | c :: cs, acc =>
      if c = '\n' then String.mk (acc.reverse ++ ['\n']) :: go cs []
      else go cs (c :: acc)

/-! ## Unified diff

Modelled from the spec: `difflib.unified_diff` (Python standard library,
called by `RepoContext.get_file_edits`, repo_context.py:253-259, but not
itself part of src/): "unified diff (headers `a/<path>`/`b/<path>`,
standard context format)". The edit script is a minimal-edit alignment of
the two line sequences; hunks keep 3 lines of context and are rendered in
the standard `@@ -i,n +j,m @@` form with `-`/`+`/` ` prefixed lines. -/

/-- One step of a line-level edit script. -/
inductive DStep where
  | keep (s : String)
  | del (s : String)
  | ins (s : String)
deriving DecidableEq, Repr

/-- Number of non-`keep` steps in a script. -/
def scriptCost (l : List DStep) : Nat :=
  l.countP (fun s => match s with | .keep _ => false | _ => true)

/-- Fuel-indexed minimal edit script between two line lists. With fuel at
least `a.length + b.length` the fuel never runs out; the fuel-exhausted
fallback deletes the remaining left lines. -/
def diffScriptF : Nat → List String → List String → List DStep
  | _, [], ys => ys.map DStep.ins
  | 0, x :: xs, _ => (x :: xs).map DStep.del
  | Nat.succ f, x :: xs, [] => DStep.del x :: diffScriptF f xs []
  | Nat.succ f, x :: xs, y :: ys =>
    if x = y then DStep.keep x :: diffScriptF f xs ys
    else
      let d1 := DStep.del x :: diffScriptF f xs (y :: ys)
      let d2 := DStep.ins y :: diffScriptF f (x :: xs) ys
      if scriptCost d1 ≤ scriptCost d2 then d1 else d2

/-- Edit script between two line lists. -/
def diffScript (a b : List String) : List DStep :=
  diffScriptF (a.length + b.length) a b

/-- Opcode tags, as in difflib (`replace` is rendered identically to an
adjacent delete/insert pair, so it is not needed). -/
inductive DTag where
  | equal
  | delete
  | insert
deriving DecidableEq, Repr

/-- An opcode covering `a[i1:i2]` and `b[j1:j2]`. -/
structure Opcode where
  tag : DTag
  i1 : Nat
  i2 : Nat
  j1 : Nat
  j2 : Nat
deriving DecidableEq, Repr

/-- Tag of a single step. -/
def stepTag : DStep → DTag
  | .keep _ => .equal
  | .del _ => .delete
  | .ins _ => .insert

/-- How far a step advances in `a`. -/
def stepDi : DTag → Nat
  | .equal => 1
  | .delete => 1
  | .insert => 0

/-- How far a step advances in `b`. -/
def stepDj : DTag → Nat
  | .equal => 1
  | .delete => 0
  | .insert => 1

/-- Merge an edit script into maximal same-tag opcodes with positions. -/
def buildOpcodes : List DStep → Nat → Nat → List Opcode
  | [], _, _ => []
  | s :: rest, i, j =>
    let t := stepTag s
    let i2 := i + stepDi t
    let j2 := j + stepDj t
    match buildOpcodes rest i2 j2 with
    | [] => [⟨t, i, i2, j, j2⟩]
    | o :: os =>
      if o.tag = t then ⟨t, i, o.i2, j, o.j2⟩ :: os
      else ⟨t, i, i2, j, j2⟩ :: o :: os

/-- Trim a leading equal opcode to at most `n` lines of context. -/
def trimHeadOpcode (n : Nat) (o : Opcode) : Opcode :=
  if o.tag = .equal then ⟨o.tag, max o.i1 (o.i2 - n), o.i2, max o.j1 (o.j2 - n), o.j2⟩
  else o

/-- Trim a trailing equal opcode to at most `n` lines of context. -/
def trimLastOpcode (n : Nat) (o : Opcode) : Opcode :=
  if o.tag = .equal then ⟨o.tag, o.i1, min o.i2 (o.i1 + n), o.j1, min o.j2 (o.j1 + n)⟩
  else o

/-- Apply a function to the last element of a list. -/
def mapLast (f : Opcode → Opcode) : List Opcode → List Opcode
  | [] => []
  | [o] => [f o]
  | o :: o2 :: os => o :: mapLast f (o2 :: os)

/-- Trim the outermost equal context of an opcode list, inserting a dummy
equal opcode when the list is empty (as difflib does). -/
def adjustEnds (n : Nat) (codes : List Opcode) : List Opcode :=
  let codes := if codes.isEmpty then [⟨.equal, 0, 1, 0, 1⟩] else codes
  match codes with
  | [] => []
  | o :: os => mapLast (trimLastOpcode n) (trimHeadOpcode n o :: os)

/-- Whether a finished group is emitted: difflib suppresses a group that
is a single equal opcode. -/
def groupKeep (g : List Opcode) : Bool :=
  match g with
  | [] => false
  | [o] => !(o.tag = .equal)
  | _ => true

/-- Split opcodes into hunk groups: a long equal run (more than `2*n`
lines) ends the current group with `n` lines of context and starts the
next with `n`. -/
def groupLoop (n : Nat) : List Opcode → List Opcode → List (List Opcode)
  | [], group => if groupKeep group then [group] else []
  | o :: os, group =>
    if o.tag = .equal ∧ 2 * n < o.i2 - o.i1 then
      (group ++ [⟨.equal, o.i1, min o.i2 (o.i1 + n), o.j1, min o.j2 (o.j1 + n)⟩])
        :: groupLoop n os [⟨.equal, max o.i1 (o.i2 - n), o.i2, max o.j1 (o.j2 - n), o.j2⟩]
    else groupLoop n os (group ++ [o])

/-- Hunk groups with `n` lines of context. -/
def groupedOpcodes (n : Nat) (codes : List Opcode) : List (List Opcode) :=
  groupLoop n (adjustEnds n codes) []

/-- Render a line range in unified format (difflib `_format_range_unified`). -/
def formatRangeUnified (start stop : Nat) : String :=
  let len := stop - start
  if len = 1 then toString (start + 1)
  else
    let beginning := if len = 0 then start else start + 1
    toString beginning ++ "," ++ toString len

/-- Slice `l[i:j]`. -/
def slice (l : List String) (i j : Nat) : List String :=
  (l.drop i).take (j - i)

/-- Render one opcode as prefixed diff lines. -/
def renderOpcode (a b : List String) (o : Opcode) : List String :=
  match o.tag with
  | .equal => (slice a o.i1 o.i2).map (fun s => " " ++ s)
  | .delete => (slice a o.i1 o.i2).map (fun s => "-" ++ s)
  | .insert => (slice b o.j1 o.j2).map (fun s => "+" ++ s)

/-- Render one hunk group: `@@` header then its lines. -/
def renderGroup (a b : List String) (g : List Opcode) : List String :=
  match g with
  | [] => []
  | first :: _ =>
    let last := g.getLastD first
    ("@@ -" ++ formatRangeUnified first.i1 last.i2 ++ " +"
      ++ formatRangeUnified first.j1 last.j2 ++ " @@")
      :: (g.map (renderOpcode a b)).flatten

/-- Unified diff between line lists `a` and `b` with the given file
headers, one output entry per line (`lineterm=""` as in the source call). -/
def unified_diff (a b : List String) (fromfile tofile : String) : List String :=
  let groups := groupedOpcodes 3 (buildOpcodes (diffScript a b) 0 0)
  match groups with
  | [] => []
  | _ =>
    ("--- " ++ fromfile) :: ("+++ " ++ tofile)
      :: (groups.map (renderGroup a b)).flatten

/-- The diff string `RepoContext.get_file_edits` stores: split both
contents into kept-ends lines, diff, and join with newlines
(repo_context.py:253-260). -/
def unifiedDiffStr (original current fromfile tofile : String) : String :=
  joinNL (unified_diff (splitLinesKeep original) (splitLinesKeep current) fromfile tofile)

/-! ## RepoContext: file operations and edit tracking

The checkout's files are an association list from relative path to text
content (a path absent from the list does not exist on disk). The
`_originals` baseline map of `RepoContext` is likewise an association
list in insertion order, mirroring the Python dict. Path resolution is
modelled separately below (see the PathRes section); the file operations
here take already-relative in-checkout paths, which is the situation the
edit-tracking claims quantify over. -/

/-- First binding of `p` in an association list (Python dict lookup; for
the lists built here keys are appended at most once). -/
def lookupAL (l : List (String × String)) (p : String) : Option String :=
  match l with
  | [] => none
  | (q, v) :: rest => if q = p then some v else lookupAL rest p

/-- Contents of the checkout: path → file content. -/
abbrev Fs := List (String × String)

/-- Content of `p` on disk, if the file exists. -/
def lookupFs (fs : Fs) (p : String) : Option String :=
  lookupAL fs p

/-- Overwrite (or create) the file at `p`. -/
def setFs (fs : Fs) (p c : String) : Fs :=
  match fs with
  | [] => [(p, c)]
  | (q, v) :: rest => if q = p then (p, c) :: rest else (q, v) :: setFs rest p c

/-- State of a `RepoContext`: the on-disk checkout plus the `_originals`
baseline map (repo_context.py:37). -/
structure RepoState where
  fs : Fs
  originals : List (String × String)
deriving DecidableEq, Repr

/-- One file edit (models/incident.py:13-19). -/
structure FileEdit where
  file_path : String
  original_content : String
  new_content : String
  unified_diff : String
deriving DecidableEq, Repr

/-- Snapshot the original content of `p` if this is its first edit
(repo_context.py:115-120): the current on-disk content, or the empty
string when the file does not exist. -/
def snapshotOriginal (st : RepoState) (p : String) : List (String × String) :=
  if (lookupAL st.originals p).isSome then st.originals
  else st.originals ++ [(p, (lookupFs st.fs p).getD "")]

/-- `RepoContext.write_file` (repo_context.py:111-126): snapshot the
baseline on first touch, then overwrite the file. Returns the new state
and the tool-result message. -/
def write_file (st : RepoState) (p content : String) : RepoState × String :=
  ({ fs := setFs st.fs p content, originals := snapshotOriginal st p },
   "Wrote " ++ toString content.length ++ " chars to " ++ p)

/-- `RepoContext.read_file` (repo_context.py:102-109) on an in-checkout
path: the content, or the not-found error. -/
def read_file (st : RepoState) (p : String) : Except String String :=
  match lookupFs st.fs p with
  | some c => Except.ok c
  | none => Except.error ("File not found: " ++ p)

/-- `RepoContext.search_and_replace` (repo_context.py:128-144): read the
file (raising if absent), return a not-found message when `old` is
absent, otherwise snapshot the baseline on first touch and replace the
first occurrence. -/
def search_and_replace (st : RepoState) (p old new : String) :
    Except String (RepoState × String) :=
  match lookupFs st.fs p with
  | none => Except.error ("File not found: " ++ p)
  | some content =>
    if strContains content old then
      let originals :=
        if (lookupAL st.originals p).isSome then st.originals
        else st.originals ++ [(p, content)]
      Except.ok
        ({ fs := setFs st.fs p (pyReplaceFirst content old new), originals := originals },
         "Replaced 1 occurrence in " ++ p)
    else Except.ok (st, "String not found in " ++ p ++ ": " ++ old.take 80 ++ "...")

/-- `RepoContext.reset_edit_tracking` (repo_context.py:216-234):
re-snapshot the current content of every tracked path as the new
baseline (empty string when the file no longer exists). -/
def reset_edit_tracking (st : RepoState) : RepoState :=
  { fs := st.fs
    originals := st.originals.map (fun pr => (pr.1, (lookupFs st.fs pr.1).getD "")) }

/-- `RepoContext.get_file_edits` (repo_context.py:239-271): one
`FileEdit` per tracked path whose current content (empty when the file
is gone) differs from its baseline, with a unified diff headed
`a/<path>` / `b/<path>`. The diff function is a parameter so that the
theorems hold for the exact stdlib `difflib.unified_diff` as well as the
modelled `unifiedDiffStr`. -/
def get_file_edits (udiff : String → String → String → String → String)
    (st : RepoState) : List FileEdit :=
  st.originals.filterMap (fun pr =>
    let current := (lookupFs st.fs pr.1).getD ""
    if pr.2 = current then none
    else some { file_path := pr.1
                original_content := pr.2
                new_content := current
                unified_diff := udiff pr.2 current ("a/" ++ pr.1) ("b/" ++ pr.1) })

/-- A write or replace tool operation on one path. -/
inductive Op where
  | write (content : String)
  | replace (old new : String)
deriving DecidableEq, Repr

/-- Apply one operation at path `p`, succeeding (`some`) exactly when the
operation succeeds: a write always does; a replace needs the file to
exist and `old` to occur in it (otherwise the code raises
`FileNotFoundError` or returns the "String not found" message without
modifying anything). -/
def applyOp (p : String) (op : Op) (st : RepoState) : Option RepoState :=
  match op with
  | .write c => some (write_file st p c).1
  | .replace old new =>
    match lookupFs st.fs p with
    | none => none
    | some content =>
      if strContains content old then
        match search_and_replace st p old new with
        | .ok pr => some pr.1
        | .error _ => none
      else none

/-- Run a sequence of operations at path `p`, failing if any fails. -/
def runOps (p : String) : List Op → RepoState → Option RepoState
  | [], st => some st
  | op :: rest, st =>
    match applyOp p op st with
    | none => none
    | some st1 => runOps p rest st1

/-! ## Association-list lemmas -/

theorem lookupAL_eq_none_iff (l : List (String × String)) (p : String) :
    lookupAL l p = none ↔ ∀ pr ∈ l, pr.1 ≠ p := by
  induction l with
  | nil => simp [lookupAL]
  | cons hd tl ih =>
    obtain ⟨q, v⟩ := hd
    by_cases hq : q = p
    · subst hq
      simp [lookupAL]
    · simp [lookupAL, hq, ih]

theorem lookupAL_append_single (l : List (String × String)) (p v : String)
    (h : lookupAL l p = none) : lookupAL (l ++ [(p, v)]) p = some v := by
  induction l with
  | nil => simp [lookupAL]
  | cons hd tl ih =>
    obtain ⟨q, w⟩ := hd
    by_cases hq : q = p
    · simp [lookupAL, hq] at h
    · simp only [lookupAL, hq, if_neg] at h ⊢
      simp [hq]
      exact ih h

/-! ## Edit tracking: C8, C1, C10 -/

/-- A baseline map freshly re-snapshotted from the checkout contents
produces no edits. -/
theorem get_file_edits_resnapshot (udiff : String → String → String → String → String)
    (fs : Fs) (l : List (String × String)) :
    get_file_edits udiff ⟨fs, l.map (fun pr => (pr.1, (lookupFs fs pr.1).getD ""))⟩ = [] := by
  induction l with
  | nil => rfl
  | cons hd tl ih =>
    simp only [get_file_edits, List.map_cons, List.filterMap_cons] at ih ⊢
    simp only [if_pos trivial, ite_self, if_true]
    simp


/-- Claim C8: in every WorkingCopy state, `reset_edit_tracking` followed
immediately by `get_file_edits` yields the empty list, for any diff
function. -/
theorem claim_C8_reset_then_diff_empty
    (udiff : String → String → String → String → String) (st : RepoState) :
    get_file_edits udiff (reset_edit_tracking st) = [] :=
  get_file_edits_resnapshot udiff st.fs st.originals

/-- A successful operation on a path already present in `_originals`
leaves `_originals` unchanged. -/
theorem applyOp_originals_of_tracked (p : String) (op : Op) (st st1 : RepoState)
    (htr : (lookupAL st.originals p).isSome)
    (happ : applyOp p op st = some st1) :
    st1.originals = st.originals := by
  cases op with
  | write c =>
    simp only [applyOp, write_file, snapshotOriginal, htr, if_pos] at happ
    cases happ
    simp [htr]
  | replace old new =>
    simp only [applyOp] at happ
    cases hfs : lookupFs st.fs p with
    | none => rw [hfs] at happ; cases happ
    | some content =>
      rw [hfs] at happ
      by_cases hc : strContains content old
      · simp only [hc, if_pos, search_and_replace, hfs, htr] at happ
        cases happ
        simp [htr]
      · simp [hc] at happ

/-- Once tracked, a path's `_originals` entries survive any successful
operation sequence. -/
theorem runOps_originals_of_tracked (p : String) (ops : List Op) (st st' : RepoState)
    (htr : (lookupAL st.originals p).isSome)
    (hrun : runOps p ops st = some st') :
    st'.originals = st.originals := by
  induction ops generalizing st with
  | nil =>
    simp only [runOps] at hrun
    cases hrun
    rfl
  | cons op rest ih =>
    simp only [runOps] at hrun
    cases happ : applyOp p op st with
    | none => rw [happ] at hrun; cases hrun
    | some st1 =>
      rw [happ] at hrun
      have h1 := applyOp_originals_of_tracked p op st st1 htr happ
      have h2 : (lookupAL st1.originals p).isSome := by rw [h1]; exact htr
      rw [ih st1 h2 hrun, h1]

/-- The first successful operation on a fresh path appends exactly one
baseline entry: the path with its pre-operation content (empty string if
the file did not exist). -/
theorem applyOp_originals_of_fresh (p : String) (op : Op) (st st1 : RepoState)
    (hfresh : lookupAL st.originals p = none)
    (happ : applyOp p op st = some st1) :
    st1.originals = st.originals ++ [(p, (lookupFs st.fs p).getD "")] := by
  cases op with
  | write c =>
    simp only [applyOp, write_file, snapshotOriginal, hfresh] at happ
    cases happ
    simp [hfresh]
  | replace old new =>
    simp only [applyOp] at happ
    cases hfs : lookupFs st.fs p with
    | none => rw [hfs] at happ; cases happ
    | some content =>
      rw [hfs] at happ
      by_cases hc : strContains content old
      · simp only [hc, if_pos, search_and_replace, hfs, hfresh] at happ
        cases happ
        simp [hfresh, hfs]
      · simp [hc] at happ

/-- After a successful nonempty operation sequence on a fresh path, the
baseline map is the old one plus exactly one entry for that path holding
its pre-sequence content. -/
theorem runOps_originals_of_fresh (p : String) (ops : List Op) (st st' : RepoState)
    (hfresh : lookupAL st.originals p = none)
    (hrun : runOps p ops st = some st') :
    (ops = [] ∧ st' = st) ∨
      st'.originals = st.originals ++ [(p, (lookupFs st.fs p).getD "")] := by
  cases ops with
  | nil =>
    left
    simp only [runOps] at hrun
    cases hrun
    exact ⟨rfl, rfl⟩
  | cons op rest =>
    right
    simp only [runOps] at hrun
    cases happ : applyOp p op st with
    | none => rw [happ] at hrun; cases hrun
    | some st1 =>
      rw [happ] at hrun
      have h1 := applyOp_originals_of_fresh p op st st1 hfresh happ
      have h2 : (lookupAL st1.originals p).isSome := by
        rw [h1, lookupAL_append_single st.originals p _ hfresh]
        rfl
      rw [runOps_originals_of_tracked p rest st1 st' h2 hrun, h1]

/-- Baseline entries for other paths contribute no `FileEdit` for `p`. -/
theorem get_file_edits_filter_of_other (udiff : String → String → String → String → String)
    (fs : Fs) (l : List (String × String)) (p : String)
    (h : ∀ pr ∈ l, pr.1 ≠ p) :
    (get_file_edits udiff ⟨fs, l⟩).filter (fun e => e.file_path == p) = [] := by
  induction l with
  | nil => rfl
  | cons hd tl ih =>
    have hhd : hd.1 ≠ p := h hd (List.mem_cons_self hd tl)
    have htl : ∀ pr ∈ tl, pr.1 ≠ p := fun pr hm => h pr (List.mem_cons_of_mem hd hm)
    simp only [get_file_edits, List.filterMap_cons] at ih ⊢
    by_cases hc : hd.2 = (lookupFs fs hd.1).getD ""
    · simp only [hc, if_pos]
      exact ih htl
    · simp only [hc, if_neg, not_false_iff, List.filter_cons]
      have : (({ file_path := hd.1, original_content := hd.2,
                 new_content := (lookupFs fs hd.1).getD "",
                 unified_diff := udiff hd.2 ((lookupFs fs hd.1).getD "")
                   ("a/" ++ hd.1) ("b/" ++ hd.1) } : FileEdit).file_path == p) = false := by
        simpa using hhd
      rw [this]
      simp only [Bool.false_eq_true, if_neg, not_false_iff]
      exact ih htl

/-- Claim C1: after any successful write/replace sequence on a fresh
path, `get_file_edits` yields exactly one `FileEdit` for that path, whose
diff (headers `a/<path>` / `b/<path>`) compares the content immediately
before the first operation with the content after the last — and none at
all when the two are equal. Holds for every diff function, in particular
the stdlib `difflib.unified_diff` the code calls. -/
theorem claim_C1_single_edit_per_fresh_path
    (udiff : String → String → String → String → String)
    (st st' : RepoState) (p : String) (ops : List Op)
    (hfresh : lookupAL st.originals p = none)
    (hrun : runOps p ops st = some st') :
    (get_file_edits udiff st').filter (fun e => e.file_path == p) =
      (if (lookupFs st.fs p).getD "" = (lookupFs st'.fs p).getD "" then []
       else [{ file_path := p
               original_content := (lookupFs st.fs p).getD ""
               new_content := (lookupFs st'.fs p).getD ""
               unified_diff := udiff ((lookupFs st.fs p).getD "")
                 ((lookupFs st'.fs p).getD "") ("a/" ++ p) ("b/" ++ p) }]) := by
  have hother : ∀ pr ∈ st.originals, pr.1 ≠ p :=
    (lookupAL_eq_none_iff st.originals p).mp hfresh
  rcases runOps_originals_of_fresh p ops st st' hfresh hrun with ⟨_, hst⟩ | horig
  · rw [hst, if_pos rfl]
    exact get_file_edits_filter_of_other udiff st.fs st.originals p hother
  · have hsplit : get_file_edits udiff st' =
        get_file_edits udiff ⟨st'.fs, st.originals⟩ ++
          get_file_edits udiff ⟨st'.fs, [(p, (lookupFs st.fs p).getD "")]⟩ := by
      show (get_file_edits udiff ⟨st'.fs, st'.originals⟩ =
        get_file_edits udiff ⟨st'.fs, st.originals⟩ ++
          get_file_edits udiff ⟨st'.fs, [(p, (lookupFs st.fs p).getD "")]⟩)
      rw [horig]
      simp [get_file_edits, List.filterMap_append]
    rw [hsplit, List.filter_append,
      get_file_edits_filter_of_other udiff st'.fs st.originals p hother]
    simp only [List.nil_append, get_file_edits, List.filterMap_cons, List.filterMap_nil]
    by_cases hc : (lookupFs st.fs p).getD "" = (lookupFs st'.fs p).getD ""
    · simp [hc]
    · simp [hc]

/-- Concrete instance of claim C1: writing "hi" to a fresh path "a.txt"
in an empty checkout yields exactly one FileEdit from "" to "hi". -/
theorem claim_C1_witness :
    (get_file_edits (fun _ _ _ _ => "(diff)") ⟨[("a.txt", "hi")], [("a.txt", "")]⟩).filter
        (fun e => e.file_path == "a.txt") =
      [{ file_path := "a.txt", original_content := "", new_content := "hi",
         unified_diff := "(diff)" }] := by
  have h := claim_C1_single_edit_per_fresh_path (fun _ _ _ _ => "(diff)")
    ⟨[], []⟩ ⟨[("a.txt", "hi")], [("a.txt", "")]⟩ "a.txt" [Op.write "hi"]
    rfl (by decide)
  simpa using h

/-! ## Pure-deletion shape of the unified diff (for C10) -/

theorem diffScriptF_nil_right (f : Nat) (a : List String) :
    diffScriptF f a [] = a.map DStep.del := by
  induction f generalizing a with
  | zero => cases a <;> rfl
  | succ f ih =>
    cases a with
    | nil => rfl
    | cons x xs => simp [diffScriptF, ih]

theorem buildOpcodes_del (l : List String) (i j : Nat) (h : l ≠ []) :
    buildOpcodes (l.map DStep.del) i j =
      [{ tag := .delete, i1 := i, i2 := i + l.length, j1 := j, j2 := j }] := by
  induction l generalizing i with
  | nil => exact absurd rfl h
  | cons x xs ih =>
    cases xs with
    | nil => simp [buildOpcodes, stepTag, stepDi, stepDj]
    | cons y ys =>
      have htail := ih (i + 1) (by simp)
      simp only [List.map_cons] at htail ⊢
      rw [buildOpcodes]
      simp only [stepTag, stepDi, stepDj, Nat.add_zero]
      rw [htail]
      simp [Opcode.mk.injEq]
      omega

theorem groupedOpcodes_single_delete (i2 : Nat) :
    groupedOpcodes 3 [{ tag := .delete, i1 := 0, i2 := i2, j1 := 0, j2 := 0 }] =
      [[{ tag := .delete, i1 := 0, i2 := i2, j1 := 0, j2 := 0 }]] := by
  simp [groupedOpcodes, adjustEnds, mapLast, trimHeadOpcode, trimLastOpcode,
    groupLoop, groupKeep]

/-- When the right side is empty and the left is not, the unified diff is
the two file headers, one all-covering hunk header, and one `-` line per
left line. -/
theorem unified_diff_to_empty (a : List String) (h : a ≠ []) (fromfile tofile : String) :
    unified_diff a [] fromfile tofile =
      ("--- " ++ fromfile) :: ("+++ " ++ tofile)
        :: ("@@ -" ++ formatRangeUnified 0 a.length ++ " +" ++ formatRangeUnified 0 0 ++ " @@")
        :: a.map (fun s => "-" ++ s) := by
  have hscript : diffScript a [] = a.map DStep.del := by
    simp [diffScript, diffScriptF_nil_right]
  have hops := buildOpcodes_del a 0 0 h
  rw [unified_diff, hscript, hops, groupedOpcodes_single_delete]
  simp [renderGroup, renderOpcode, slice, formatRangeUnified]

theorem splitLinesKeep_go_ne_nil (l acc : List Char) (h : l ≠ [] ∨ acc ≠ []) :
    splitLinesKeep.go l acc ≠ [] := by
  induction l generalizing acc with
  | nil =>
    rcases h with h | h
    · exact absurd rfl h
    · simp [splitLinesKeep.go, h]
  | cons c cs ih =>
    simp only [splitLinesKeep.go]
    by_cases hc : c = '\n'
    · simp [hc]
    · simp only [hc, if_neg, not_false_iff]
      exact ih (c :: acc) (Or.inr (by simp))

theorem splitLinesKeep_ne_nil (s : String) (h : s ≠ "") : splitLinesKeep s ≠ [] := by
  have hd : s.data ≠ [] := by
    intro hnil
    apply h
    cases s with
    | mk data => simp at hnil; simp [hnil]
  exact splitLinesKeep_go_ne_nil s.data [] (Or.inl hd)

/-- Claim C10: a tracked path whose file no longer exists is neither
skipped nor an error: `get_file_edits` treats the current content as the
empty string, so a non-empty baseline yields a `FileEdit` whose
`new_content` is empty and whose unified diff is one hunk removing every
baseline line. -/
theorem claim_C10_deleted_file_edit (st : RepoState) (p orig : String)
    (hmem : (p, orig) ∈ st.originals)
    (hgone : lookupFs st.fs p = none)
    (hne : orig ≠ "") :
    ∃ e ∈ get_file_edits unifiedDiffStr st,
      e.file_path = p ∧ e.new_content = "" ∧
      e.unified_diff = joinNL
        (("--- " ++ ("a/" ++ p)) :: ("+++ " ++ ("b/" ++ p))
          :: ("@@ -" ++ formatRangeUnified 0 (splitLinesKeep orig).length ++ " +" ++ formatRangeUnified 0 0 ++ " @@")
          :: (splitLinesKeep orig).map (fun s => "-" ++ s)) := by
  have hcur : (lookupFs st.fs p).getD "" = "" := by rw [hgone]; rfl
  refine ⟨{ file_path := p, original_content := orig, new_content := "",
            unified_diff := unifiedDiffStr orig "" ("a/" ++ p) ("b/" ++ p) }, ?_, rfl, rfl, ?_⟩
  · apply List.mem_filterMap.mpr
    refine ⟨(p, orig), hmem, ?_⟩
    simp only [hcur]
    rw [if_neg hne]
  · show joinNL (unified_diff (splitLinesKeep orig) (splitLinesKeep "") _ _) = _
    have hempty : splitLinesKeep "" = [] := rfl
    rw [hempty, unified_diff_to_empty (splitLinesKeep orig) (splitLinesKeep_ne_nil orig hne)]

/-- Concrete instance of claim C10: baseline "x\n" for path "f" with the
file gone from disk yields the all-removing one-hunk diff. -/
theorem claim_C10_witness :
    ∃ e ∈ get_file_edits unifiedDiffStr ⟨[], [("f", "x\n")]⟩,
      e.file_path = "f" ∧ e.new_content = "" ∧
      e.unified_diff = joinNL
        (("--- " ++ ("a/" ++ "f")) :: ("+++ " ++ ("b/" ++ "f"))
          :: ("@@ -" ++ formatRangeUnified 0 (splitLinesKeep "x\n").length ++ " +" ++ formatRangeUnified 0 0 ++ " @@")
          :: (splitLinesKeep "x\n").map (fun s => "-" ++ s)) :=
  claim_C10_deleted_file_edit ⟨[], [("f", "x\n")]⟩ "f" "x\n"
    (by simp) rfl (by decide)

/-! ## PathRes: `RepoContext._resolve` and its containment check (C3)

Absolute filesystem paths are lists of components; the checkout root is
assumed canonical (no `.`/`..` inside, as produced by `clone`). Relative
arguments may contain `.` and `..`; `Path.resolve()` normalizes them,
with `..` at the filesystem root staying at the root. -/

/-- POSIX path normalization of `Path((root/rel)).resolve()` on the
component list: `.` is dropped, `..` pops the last component. -/
def normalizeComponents (comps : List String) : List String :=
  comps.foldl
    (fun acc c =>
      if c = "." then acc
      else if c = ".." then acc.dropLast
      else acc ++ [c]) []

/-- Components of `(clone_dir / path).resolve()` (repo_context.py:94). -/
def resolvedComponents (root rel : List String) : List String :=
  normalizeComponents (root ++ rel)

/-- String rendering of an absolute path, as `str(Path(...))`. -/
def renderPath (comps : List String) : String :=
  "/" ++ String.intercalate "/" comps

/-- The containment check `_resolve` actually performs
(repo_context.py:97): `str(resolved).startswith(str(clone_dir.resolve()))`. -/
def resolveCheck (root rel : List String) : Bool :=
  pyStartsWith (renderPath (resolvedComponents root rel)) (renderPath root)

/-- True containment: the resolved path lies inside the checkout root. -/
def isWithinRoot (root target : List String) : Bool :=
  root.isPrefixOf target

/-- Claim C3 fails on the code: the bare string-prefix check accepts a
relative path that resolves to a sibling directory whose name extends the
root's name. With checkout root `/tmp/repo`, the argument
`../repo_evil/secret` resolves to `/tmp/repo_evil/secret`, which is
outside the root, yet `"/tmp/repo_evil/secret".startswith("/tmp/repo")`
holds, so `_resolve` returns it and the caller then reads or writes
outside the checkout. -/
theorem claim_C3_prefix_check_escapes :
    resolveCheck ["tmp", "repo"] ["..", "repo_evil", "secret"] = true ∧
    resolvedComponents ["tmp", "repo"] ["..", "repo_evil", "secret"]
      = ["tmp", "repo_evil", "secret"] ∧
    isWithinRoot ["tmp", "repo"] (resolvedComponents ["tmp", "repo"] ["..", "repo_evil", "secret"])
      = false := by
  decide

/-! ## Grep (C6, C7)

`RepoContext.grep` (repo_context.py:146-189). The compiled regex is
modelled as a line predicate (`re.search` on one line), supplied as
`some p` for a valid pattern and `none` for a malformed one (in which
case `re.compile` raises `re.error`). The eligible files — regular,
non-hidden, outside `node_modules`/`__pycache__`, in the sorted order
`rglob` yields them — are the `files` input, each a relative path with
its decoded text split into lines. -/

/-- The result cap `max_results` (repo_context.py:153). -/
def maxResults : Nat := 50

/-- The truncation marker line (repo_context.py:184). -/
def truncMarker : String := "... (truncated at " ++ toString maxResults ++ " results)"

/-- One formatted result line `rel:i: line.rstrip()` (repo_context.py:182). -/
def grepFmt (rel : String) (i : Nat) (line : String) : String :=
  rel ++ ":" ++ toString i ++ ": " ++ pyRstrip line

/-- Scan one file's lines (1-based), appending matches to the running
result list; `Sum.inl` is the early return taken when the cap is reached
(with the marker appended), `Sum.inr` the updated accumulator. -/
def grepFileGo (p : String → Bool) (rel : String) :
    List String → Nat → List String → List String ⊕ List String
  | [], _, acc => Sum.inr acc
  | line :: rest, i, acc =>
    if p line then
      let acc2 := acc ++ [grepFmt rel i line]
      if maxResults ≤ acc2.length then Sum.inl (acc2 ++ [truncMarker])
      else grepFileGo p rel rest (i + 1) acc2
    else grepFileGo p rel rest (i + 1) acc

/-- Scan the file list, with the early return ending the whole scan. -/
def grepGo (p : String → Bool) :
    List (String × List String) → List String → List String
  | [], acc => acc
  | (rel, lines) :: rest, acc =>
    match grepFileGo p rel lines 1 acc with
    | Sum.inl final => final
    | Sum.inr acc2 => grepGo p rest acc2

/-- The result-line list `grep` joins and returns (matches, possibly
followed by the truncation marker). -/
def grep_results (p : String → Bool) (files : List (String × List String)) : List String :=
  grepGo p files []

/-- Filesystem effects `grep` can perform, in order. -/
inductive FsEvent where
  | statDir
  | readFile (rel : String)
deriving DecidableEq, Repr

/-- Files actually opened before the scan returns (each eligible file is
read in order until the early truncation return, if any). -/
def grepReadsGo (p : String → Bool) :
    List (String × List String) → List String → List FsEvent
  | [], _ => []
  | (rel, lines) :: rest, acc =>
    match grepFileGo p rel lines 1 acc with
    | Sum.inl _ => [FsEvent.readFile rel]
    | Sum.inr acc2 => FsEvent.readFile rel :: grepReadsGo p rest acc2

/-- Full `grep` body: the ordered filesystem-effect trace and the
returned string. `search_dir.exists()` (one stat, repo_context.py:149) is
evaluated first; only then is the pattern compiled (repo_context.py:156);
only after that are files read. `pat` is `some p` for a valid pattern and
`none` for a malformed one with `patErr` the exception text. -/
def grepRun (dirExists : Bool) (pat : Option (String → Bool)) (patErr : String)
    (pathArg patternArg : String) (files : List (String × List String)) :
    List FsEvent × String :=
  if !dirExists then ([FsEvent.statDir], "Path not found: " ++ pathArg)
  else
    match pat with
    | none => ([FsEvent.statDir], "Invalid regex pattern: " ++ patErr)
    | some p =>
      let results := grep_results p files
      (FsEvent.statDir :: grepReadsGo p files [],
       if results.isEmpty then "No matches found for pattern: " ++ patternArg
       else joinNL results)

/-- All matching lines of one file, formatted, from 1-based index `i`. -/
def matchLines (p : String → Bool) (rel : String) : List String → Nat → List String
  | [], _ => []
  | line :: rest, i =>
    if p line then grepFmt rel i line :: matchLines p rel rest (i + 1)
    else matchLines p rel rest (i + 1)

/-- Spec-side description: every formatted matching line of the tree, in
scan order ("a tree with K matching lines" — K is this list's length). -/
def allMatches (p : String → Bool) (files : List (String × List String)) : List String :=
  (files.map (fun pr => matchLines p pr.1 pr.2 1)).flatten

/-! ## Grep theorems -/

theorem grepFileGo_eq (p : String → Bool) (rel : String) (lines : List String)
    (i : Nat) (acc : List String) (hacc : acc.length < maxResults) :
    grepFileGo p rel lines i acc =
      if maxResults ≤ acc.length + (matchLines p rel lines i).length
      then Sum.inl ((acc ++ matchLines p rel lines i).take maxResults ++ [truncMarker])
      else Sum.inr (acc ++ matchLines p rel lines i) := by
  induction lines generalizing i acc with
  | nil =>
    have hn : ¬ maxResults ≤ acc.length := by omega
    simp [grepFileGo, matchLines, hn]
  | cons line rest ih =>
    by_cases hp : p line
    · simp only [grepFileGo, matchLines, hp, if_pos]
      by_cases hfull : maxResults ≤ (acc ++ [grepFmt rel i line]).length
      · have hlen : acc.length + 1 = maxResults := by
          simp at hfull; omega
        rw [if_pos hfull]
        have hcond : maxResults ≤ acc.length + (grepFmt rel i line :: matchLines p rel rest (i + 1)).length := by
          simp; omega
        rw [if_pos hcond]
        have htake : (acc ++ grepFmt rel i line :: matchLines p rel rest (i + 1)).take maxResults
            = acc ++ [grepFmt rel i line] := by
          rw [List.take_append_eq_append_take]
          have h1 : acc.take maxResults = acc := List.take_of_length_le (by omega)
          have h2 : maxResults - acc.length = 1 := by omega
          rw [h1, h2]
          rfl
        rw [htake]
      · have hlt : (acc ++ [grepFmt rel i line]).length < maxResults := by omega
        rw [if_neg hfull, ih (i + 1) _ hlt]
        have harr : (acc ++ [grepFmt rel i line]) ++ matchLines p rel rest (i + 1)
            = acc ++ grepFmt rel i line :: matchLines p rel rest (i + 1) := by simp
        have hlena : (acc ++ [grepFmt rel i line]).length + (matchLines p rel rest (i + 1)).length
            = acc.length + (grepFmt rel i line :: matchLines p rel rest (i + 1)).length := by
          simp; omega
        rw [harr, hlena]
    · simp only [grepFileGo, matchLines, hp, if_neg, Bool.false_eq_true, not_false_iff]
      exact ih (i + 1) acc hacc

theorem grepGo_eq (p : String → Bool) (files : List (String × List String))
    (acc : List String) (hacc : acc.length < maxResults) :
    grepGo p files acc =
      if maxResults ≤ acc.length + (allMatches p files).length
      then (acc ++ allMatches p files).take maxResults ++ [truncMarker]
      else acc ++ allMatches p files := by
  induction files generalizing acc with
  | nil =>
    have hn : ¬ maxResults ≤ acc.length := by omega
    simp [grepGo, allMatches, hn]
  | cons f rest ih =>
    obtain ⟨rel, lines⟩ := f
    have hall : allMatches p ((rel, lines) :: rest)
        = matchLines p rel lines 1 ++ allMatches p rest := by
      simp [allMatches]
    rw [grepGo, grepFileGo_eq p rel lines 1 acc hacc, hall]
    by_cases h1 : maxResults ≤ acc.length + (matchLines p rel lines 1).length
    · have hcond : maxResults ≤ acc.length + (matchLines p rel lines 1 ++ allMatches p rest).length := by
        simp at h1 ⊢; omega
      rw [if_pos h1, if_pos hcond]
      show (acc ++ matchLines p rel lines 1).take maxResults ++ [truncMarker] = _
      have htake : (acc ++ (matchLines p rel lines 1 ++ allMatches p rest)).take maxResults
          = (acc ++ matchLines p rel lines 1).take maxResults := by
        rw [← List.append_assoc, List.take_append_eq_append_take]
        have hz : maxResults - (acc ++ matchLines p rel lines 1).length = 0 := by
          simp at h1 ⊢; omega
        rw [hz]
        simp
      rw [htake]
    · have hlt : (acc ++ matchLines p rel lines 1).length < maxResults := by
        simp at h1 ⊢; omega
      rw [if_neg h1]
      show grepGo p rest (acc ++ matchLines p rel lines 1) = _
      rw [ih _ hlt]
      have hlen : (acc ++ matchLines p rel lines 1).length + (allMatches p rest).length
          = acc.length + (matchLines p rel lines 1 ++ allMatches p rest).length := by
        simp; omega
      rw [hlen, List.append_assoc]

/-- Amended claim C6: for a valid pattern, the scan returns the first
`min(K, 50)` formatted matching lines, followed by the truncation marker
exactly when K is at least 50 (not strictly greater: the marker is
appended as soon as the 50th match is recorded). -/
theorem claim_C6_results_and_marker (p : String → Bool)
    (files : List (String × List String)) :
    grep_results p files =
      (allMatches p files).take maxResults ++
        (if maxResults ≤ (allMatches p files).length then [truncMarker] else []) := by
  have h := grepGo_eq p files [] (by simp [maxResults])
  rw [grep_results, h]
  by_cases hk : maxResults ≤ (allMatches p files).length
  · simp only [List.length_nil, Nat.zero_add, hk, if_pos, List.nil_append]
  · simp only [List.length_nil, Nat.zero_add, hk, if_neg, not_false_iff, List.nil_append]
    rw [List.take_of_length_le (by omega)]
    simp

/-- Claim C6 as stated is false at K = 50: a tree with exactly 50
matching lines produces the truncation marker even though K is not
greater than 50. -/
theorem claim_C6_counterexample :
    (allMatches (fun _ => true) [("f", List.replicate 50 "m")]).length = 50 ∧
    truncMarker ∈ grep_results (fun _ => true) [("f", List.replicate 50 "m")] := by
  decide

/-- Claim C7 as stated is false: `grep` stats the search directory
before compiling the pattern, so with a malformed pattern and a
nonexistent path the result is the path error, not the pattern error,
and a filesystem access (the stat) has already happened. -/
theorem claim_C7_counterexample :
    grepRun false none "bad" "nope" "[" [] =
      ([FsEvent.statDir], "Path not found: nope") := rfl

/-- Amended claim C7: a malformed pattern makes `grep` return the
pattern error before reading any file contents — the only filesystem
access preceding validation is the single existence stat of the
(existing) search path. -/
theorem claim_C7_validation_before_reads (patErr pathArg patternArg : String)
    (files : List (String × List String)) :
    grepRun true none patErr pathArg patternArg files =
      ([FsEvent.statDir], "Invalid regex pattern: " ++ patErr) := rfl

/-! ## EventBus (C4)

`EventBus` (src/streaming/event_bus.py). One subscriber's
`asyncio.Queue(maxsize=1000)` is a FIFO list of `Option α` values —
`some e` a published event, `none` the terminal sentinel `close_stream`
pushes. `put_nowait` on a full queue raises `QueueFull`, which both
`publish` (line 33-36) and `close_stream` (line 66-69) swallow, dropping
the value. The scenario of the claim is a subscriber that has not yet
drained anything when the publishes and the close happen; `drainQ` is the
`subscribe` generator loop (lines 49-54) consuming the queue afterwards:
it yields events until the `None` sentinel (`true` = sentinel seen,
stream ended; `false` = queue exhausted with the generator still
awaiting). -/

/-- Queue capacity (event_bus.py:40). -/
def queueCapacity : Nat := 1000

/-- `q.put_nowait (some e)` for one subscriber queue: appended unless the
queue is full, in which case the event is dropped. -/
def publishQ (q : List (Option α)) (e : α) : List (Option α) :=
  if queueCapacity ≤ q.length then q else q ++ [some e]

/-- `close_stream`'s `q.put_nowait(None)`: the sentinel, likewise dropped
on a full queue. -/
def closeQ (q : List (Option α)) : List (Option α) :=
  if queueCapacity ≤ q.length then q else q ++ [none]

/-- `publish` pushes to every current subscriber queue of the incident. -/
def busPublish (subs : List (List (Option α))) (e : α) : List (List (Option α)) :=
  subs.map (fun q => publishQ q e)

/-- A sequence of publishes into one subscriber queue. -/
def publishSeq (q : List (Option α)) (events : List α) : List (Option α) :=
  events.foldl publishQ q

/-- The subscriber generator loop, run on the queue contents: events
yielded in order, and whether the sentinel ended the stream. -/
def drainQ : List (Option α) → List α × Bool
  | [] => ([], false)
  | none :: _ => ([], true)
  | some e :: rest =>
    let (es, t) := drainQ rest
    (e :: es, t)

theorem publishSeq_of_room (events : List α) (q : List (Option α))
    (h : q.length + events.length ≤ queueCapacity) :
    publishSeq q events = q ++ events.map some := by
  induction events generalizing q with
  | nil => simp [publishSeq]
  | cons e rest ih =>
    have hq : ¬ queueCapacity ≤ q.length := by
      simp at h; omega
    have hstep : publishQ q e = q ++ [some e] := by
      simp [publishQ, hq]
    show publishSeq (publishQ q e) rest = _
    rw [hstep, ih (q ++ [some e]) (by simp at h ⊢; omega)]
    simp

theorem drainQ_map_some (events : List α) :
    drainQ (events.map some) = (events, false) := by
  induction events with
  | nil => rfl
  | cons e rest ih => simp [drainQ, ih]

theorem drainQ_map_some_sentinel (events : List α) :
    drainQ (events.map some ++ [none]) = (events, true) := by
  induction events with
  | nil => rfl
  | cons e rest ih => simp [drainQ, ih]

/-- Amended claim C4: a fresh subscriber that receives M publishes
followed by the close observes exactly those M events in publish order,
then the sentinel and stream end — provided M is strictly below the
queue capacity 1000; and a publish into a full subscriber queue drops
the new event rather than blocking. -/
theorem claim_C4_delivery_and_drop (events : List α) (q : List (Option α)) (e : α) :
    (events.length < queueCapacity →
      drainQ (closeQ (publishSeq [] events)) = (events, true)) ∧
    (queueCapacity ≤ q.length → publishQ q e = q) := by
  constructor
  · intro h
    have hp : publishSeq ([] : List (Option α)) events = events.map some :=
      publishSeq_of_room events [] (by simp; omega)
    have hc : closeQ (events.map some) = events.map some ++ [none] := by
      simp only [closeQ, List.length_map]
      rw [if_neg (by omega)]
    rw [hp, hc, drainQ_map_some_sentinel]
  · intro h
    simp [publishQ, h]

/-- Concrete instance of amended claim C4: three events are delivered in
order followed by the stream end, and a publish into a full queue (1000
entries) is dropped. -/
theorem claim_C4_witness :
    drainQ (closeQ (publishSeq [] [10, 20, 30])) = ([10, 20, 30], true) ∧
    publishQ (List.replicate 1000 (some 7)) 9 = List.replicate 1000 (some 7) :=
  ⟨(claim_C4_delivery_and_drop [10, 20, 30] (List.replicate 1000 (some 7)) 9).1 (by decide),
   (claim_C4_delivery_and_drop ([] : List Nat) (List.replicate 1000 (some 7)) 9).2
     (by rw [List.length_replicate]; exact Nat.le_refl 1000)⟩

/-- Claim C4 as stated is false at the boundary M = 1000: the 1000
publishes fill the queue exactly, `close_stream`'s sentinel is dropped by
the full queue, and the subscriber observes the 1000 events but never
the terminal sentinel or stream end. -/
theorem claim_C4_counterexample :
    drainQ (closeQ (publishSeq [] (List.replicate 1000 (0 : Nat))))
      = (List.replicate 1000 0, false) := by
  have hp : publishSeq ([] : List (Option Nat)) (List.replicate 1000 0)
      = (List.replicate 1000 0).map some :=
    publishSeq_of_room _ []
      (by rw [List.length_nil, List.length_replicate]; exact Nat.le_refl 1000)
  have hfull : queueCapacity ≤ ((List.replicate 1000 (0 : Nat)).map some).length := by
    rw [List.length_map, List.length_replicate]
    exact Nat.le_refl 1000
  have hc : closeQ ((List.replicate 1000 (0 : Nat)).map some)
      = (List.replicate 1000 (0 : Nat)).map some := by
    rw [closeQ, if_pos hfull]
  rw [hp, hc, drainQ_map_some]

/-! ## Sandbox-run budget (C9)

`run_sandbox` (src/agents/tools.py:203-277). The incident-visible state
is the remaining budget (`deps.sandbox_runs_remaining`, a Python int),
the incident's terminal log (which an executed run appends to), and the
list of events published to the bus. `run_single_sandbox` is imported
from sandbox.modal_runner but is not present in src/, so an executed
run's outcome is a parameter; the budget-exhausted branch under
verification here never reaches it. -/

/-- A completed single sandbox run, as formatted by the tool. -/
structure SandboxRunResult where
  exit_code : Int
  stdout : String
  stderr : String
deriving DecidableEq, Repr

/-- Outcome of `run_single_sandbox`: a result, or an exception. -/
inductive RunOutcome where
  | ok (r : SandboxRunResult) (logLines : List String)
  | raised (msg : String)
deriving DecidableEq, Repr

/-- The tool-visible state threaded through `run_sandbox`. -/
structure DepsState where
  sandbox_runs_remaining : Int
  incident_terminal_log : List String
  published : List String
deriving DecidableEq, Repr

/-- The budget-exhausted message (tools.py:225). -/
def exhaustedMsg : String :=
  "Sandbox run budget exhausted. You have used all available sandbox runs. Please finalize your fix based on the results you already have."

/-- Python `str.strip()`. -/
def pyStrip (s : String) : String :=
  String.mk (((s.data.dropWhile Char.isWhitespace).reverse.dropWhile Char.isWhitespace).reverse)

/-- The readable result string built at tools.py:250-259. -/
def formatSandboxRunOutput (label : String) (r : SandboxRunResult) (remaining : Int) : String :=
  joinNL (["=== Sandbox Run: " ++ label ++ " ===",
           "Exit code: " ++ toString r.exit_code]
    ++ (if r.stdout = "" then [] else ["\n--- stdout ---\n" ++ pyStrip r.stdout])
    ++ (if r.stderr = "" then [] else ["\n--- stderr ---\n" ++ pyStrip r.stderr])
    ++ ["\n(Sandbox runs remaining: " ++ toString remaining ++ ")"])

/-- `run_sandbox` (tools.py:203-277): returns the new state, the tool
result string, and whether a sandbox run was actually executed. The
budget guard (tools.py:224-231) publishes an explanatory tool result and
returns without raising, without decrementing, and without touching the
incident. -/
def run_sandbox (st : DepsState) (outcome : RunOutcome) (label : String) :
    DepsState × String × Bool :=
  if st.sandbox_runs_remaining ≤ 0 then
    ({ st with published := st.published ++ ["tool_result:run_sandbox"] },
     exhaustedMsg, false)
  else
    let st1 : DepsState :=
      { st with
        sandbox_runs_remaining := st.sandbox_runs_remaining - 1
        published := st.published ++ ["tool_call:run_sandbox"] }
    match outcome with
    | .ok r logLines =>
      let out := formatSandboxRunOutput label r st1.sandbox_runs_remaining
      ({ st1 with
         incident_terminal_log := st1.incident_terminal_log ++ logLines
         published := st1.published ++ ["tool_result:run_sandbox"] },
       out, true)
    | .raised m =>
      ({ st1 with published := st1.published ++ ["tool_result:run_sandbox"] },
       "Sandbox error: " ++ m, true)

/-- Claim C9: with the budget at zero or below, `run_sandbox` returns the
explanatory message as an ordinary (non-raised) tool result, executes no
sandbox run, and leaves the incident's terminal log and the remaining
budget unchanged — for any would-be run outcome. -/
theorem claim_C9_budget_fail_closed (st : DepsState) (outcome : RunOutcome) (label : String)
    (h : st.sandbox_runs_remaining ≤ 0) :
    (run_sandbox st outcome label).2.1 = exhaustedMsg ∧
    (run_sandbox st outcome label).2.2 = false ∧
    (run_sandbox st outcome label).1.sandbox_runs_remaining = st.sandbox_runs_remaining ∧
    (run_sandbox st outcome label).1.incident_terminal_log = st.incident_terminal_log := by
  simp [run_sandbox, h]

/-- Concrete instance of claim C9: budget 0 (and an outcome that would
raise if it ran) yields the message, no execution, no state change. -/
theorem claim_C9_witness :
    (run_sandbox ⟨0, ["old line"], []⟩ (RunOutcome.raised "boom") "test").2.1 = exhaustedMsg ∧
    (run_sandbox ⟨0, ["old line"], []⟩ (RunOutcome.raised "boom") "test").2.2 = false ∧
    (run_sandbox ⟨0, ["old line"], []⟩ (RunOutcome.raised "boom") "test").1.sandbox_runs_remaining = 0 ∧
    (run_sandbox ⟨0, ["old line"], []⟩ (RunOutcome.raised "boom") "test").1.incident_terminal_log = ["old line"] :=
  claim_C9_budget_fail_closed ⟨0, ["old line"], []⟩ (RunOutcome.raised "boom") "test" (by decide)

/-! ## RemediationPipeline (C2, C5)

`_run_pipeline` (src/app.py:210-354). Per attempt, the investigation
(phase 1) either returns an agent verdict — whose self-reported flags
`investigate_incident` writes into the incident
(investigator.py:120-121, or False/False when the run yields no result,
lines 126-127) — or raises, aborting the incident. The sandbox phase
(phase 2) either returns a result dict or raises. Each attempt's outcome
pair is a parameter; the loop over `range(1, max_attempts+1)` is the
recursion over the attempt list, `isFinal` standing for
`attempt == max_attempts`. -/

/-- The dict `run_sandbox_verification` returns (modal_runner.py:200-295). -/
structure SandboxResult where
  reproduced : Bool
  fix_verified : Bool
  output : String
deriving DecidableEq, Repr

/-- Phase-1 outcome: the agent's structured verdict flags, or an
exception from cloning/agent run. -/
inductive InvOutcome where
  | ok (selfRepro selfVerified : Bool)
  | raised (msg : String)
deriving DecidableEq, Repr

/-- Phase-2 outcome: a verification result, or an infrastructure
exception escaping `run_sandbox_verification`. -/
inductive SbOutcome where
  | ok (r : SandboxResult)
  | raised (msg : String)
deriving DecidableEq, Repr

/-- One attempt's environment. -/
structure AttemptSpec where
  inv : InvOutcome
  sb : SbOutcome
deriving DecidableEq, Repr

/-- The incident fields the pipeline mutates. -/
structure PipeState where
  status : String
  sandbox_reproduced : Option Bool
  sandbox_fix_verified : Option Bool
  sandbox_output : String
  retry_context : Option String
  terminal_log : List String
deriving DecidableEq, Repr

/-- A fresh incident's fields (models/incident.py:68,85-88). -/
def initPipeState : PipeState :=
  { status := "detected", sandbox_reproduced := none, sandbox_fix_verified := none
    sandbox_output := "", retry_context := none, terminal_log := [] }

/-- Python `str(True)` / `str(False)` / `str(None)`. -/
def pyOptBoolStr : Option Bool → String
  | some true => "True"
  | some false => "False"
  | none => "None"

/-- `_format_sandbox_feedback` (app.py:184-207): flags, the last 100
terminal-log lines (already formatted), and the first 2000 characters of
the raw output. -/
def formatSandboxFeedback (st : PipeState) : String :=
  joinNL (
    ["### Sandbox Results (attempt failed)",
     "- Bug reproduced: " ++ pyOptBoolStr st.sandbox_reproduced,
     "- Fix verified: " ++ pyOptBoolStr st.sandbox_fix_verified,
     ""]
    ++ (if st.terminal_log.isEmpty then []
        else ["### Sandbox Terminal Output", "```"]
          ++ st.terminal_log.drop (st.terminal_log.length - 100) ++ ["```"])
    ++ (if st.sandbox_output = "" then []
        else ["", "### Raw Output", "```", st.sandbox_output.take 2000, "```"]))

/-- The retry context composed when the sandbox raises on a non-final
attempt (app.py:335). -/
def sandboxCrashFeedback (m : String) : String :=
  "### Sandbox Error\n\nSandbox crashed: " ++ m ++ "\n\nPlease review your fix and try again."

/-- The result dict `run_sandbox_verification` returns when its body
raises: the exception is caught and becomes a failed verification
(modal_runner.py:285-295). -/
def infraErrorResult (m : String) : SandboxResult :=
  { reproduced := false, fix_verified := false, output := "Sandbox error: " ++ m }

/-- Result of one attempt: `halt` — the coroutine returns or breaks out
of the loop; `next` — the loop proceeds to the following attempt. -/
inductive StepOutcome where
  | halt (st : PipeState)
  | next (st : PipeState)
deriving DecidableEq, Repr

/-- The state carried by a step outcome. -/
def stepState : StepOutcome → PipeState
  | .halt st => st
  | .next st => st

/-- Whether the step ended the pipeline. -/
def stepHalts : StepOutcome → Bool
  | .halt _ => true
  | .next _ => false

/-- One iteration of the retry loop (app.py:225-347). -/
def runAttempt (isFinal : Bool) (a : AttemptSpec) (st : PipeState) : StepOutcome :=
  match a.inv with
  | .raised _ => .halt { st with status := "failed" }
  | .ok selfRepro selfVerified =>
    let st1 : PipeState :=
      { st with
        status := "fix_proposed"
        sandbox_reproduced := some selfRepro
        sandbox_fix_verified := some selfVerified }
    let st2 : PipeState := { st1 with status := "simulating" }
    match a.sb with
    | .ok r =>
      let st3 : PipeState :=
        { st2 with
          sandbox_reproduced := some r.reproduced
          sandbox_fix_verified := some r.fix_verified
          sandbox_output := r.output }
      if r.fix_verified then .halt { st3 with status := "verified" }
      else if isFinal then .halt { st3 with status := "failed" }
      else .next { st3 with
        retry_context := some (formatSandboxFeedback st3)
        terminal_log := [] }
    | .raised m =>
      let st3 : PipeState := { st2 with sandbox_output := "Sandbox error: " ++ m }
      if isFinal then .halt { st3 with status := "failed" }
      else .next { st3 with retry_context := some (sandboxCrashFeedback m) }

/-- The whole retry loop: one `AttemptSpec` per configured attempt. -/
def runPipeline : List AttemptSpec → PipeState → PipeState
  | [], st => st
  | a :: rest, st =>
    match runAttempt rest.isEmpty a st with
    | .halt st' => st'
    | .next st' => runPipeline rest st'

/-- Spec-side predicate, following the spec's words: the pipeline
verifies exactly when some reachable attempt's **sandbox** result has
`fix_verified` true — the agent's self-reported flags never appear. -/
def specVerifies : List AttemptSpec → Bool
  | [] => false
  | a :: rest =>
    match a.inv with
    | .raised _ => false
    | .ok _ _ =>
      match a.sb with
      | .ok r =>
        if r.fix_verified then true
        else if rest.isEmpty then false else specVerifies rest
      | .raised _ => if rest.isEmpty then false else specVerifies rest

/-! ## Pipeline theorems (C2, C5) -/

/-- When the sandbox phase completes with a result, the stored flags are
that result's, whatever the agent self-reported. -/
theorem runAttempt_overwrites_flags (isFinal : Bool) (a : AttemptSpec) (st : PipeState)
    (sr sv : Bool) (r : SandboxResult)
    (hinv : a.inv = InvOutcome.ok sr sv) (hsb : a.sb = SbOutcome.ok r) :
    (stepState (runAttempt isFinal a st)).sandbox_reproduced = some r.reproduced ∧
    (stepState (runAttempt isFinal a st)).sandbox_fix_verified = some r.fix_verified := by
  obtain ⟨inv, sb⟩ := a
  cases hinv
  cases hsb
  simp only [runAttempt]
  by_cases hv : r.fix_verified
  · simp [hv, stepState]
  · cases isFinal <;> simp [hv, stepState]

/-- The pipeline ends `verified` exactly when the sandbox-result-only
predicate `specVerifies` holds. -/
theorem runPipeline_verified_iff (specs : List AttemptSpec) (st0 : PipeState)
    (h : specs ≠ []) :
    (runPipeline specs st0).status = "verified" ↔ specVerifies specs = true := by
  induction specs generalizing st0 with
  | nil => exact absurd rfl h
  | cons a rest ih =>
    obtain ⟨inv, sb⟩ := a
    cases inv with
    | raised m =>
      show ("failed" = "verified") ↔ (false = true)
      constructor
      · intro hq; exact absurd hq (by decide)
      · intro hq; cases hq
    | ok sr sv =>
      cases sb with
      | ok r =>
        by_cases hv : r.fix_verified
        · have hred : (runPipeline (⟨InvOutcome.ok sr sv, SbOutcome.ok r⟩ :: rest) st0).status
              = "verified" := by
            cases rest <;> simp [runPipeline, runAttempt, hv, stepState]
          rw [hred]
          simp [specVerifies, hv]
        · cases rest with
          | nil =>
            have hred : (runPipeline [⟨InvOutcome.ok sr sv, SbOutcome.ok r⟩] st0).status
                = "failed" := by
              simp [runPipeline, runAttempt, hv]
            rw [hred]
            simp [specVerifies, hv]
          | cons b bs =>
            have hred : runPipeline (⟨InvOutcome.ok sr sv, SbOutcome.ok r⟩ :: b :: bs) st0
                = runPipeline (b :: bs)
                    (stepState (runAttempt false ⟨InvOutcome.ok sr sv, SbOutcome.ok r⟩ st0)) := by
              simp [runPipeline, runAttempt, hv, stepState]
            rw [hred, ih _ (by simp)]
            simp [specVerifies, hv]
      | raised m =>
        cases rest with
        | nil =>
          show ("failed" = "verified") ↔ (false = true)
          constructor
          · intro hq; exact absurd hq (by decide)
          · intro hq; cases hq
        | cons b bs =>
          have hred : runPipeline (⟨InvOutcome.ok sr sv, SbOutcome.raised m⟩ :: b :: bs) st0
              = runPipeline (b :: bs)
                  (stepState (runAttempt false ⟨InvOutcome.ok sr sv, SbOutcome.raised m⟩ st0)) := by
            simp [runPipeline, runAttempt, stepState]
          rw [hred, ih _ (by simp)]
          simp [specVerifies]

/-- Claim C2: (i) whenever the sandbox verification phase runs to a
result, that result overwrites the agent's self-reported
`sandbox_reproduced`/`sandbox_fix_verified`; (ii) across all attempts,
the incident reaches status `verified` exactly when some reached
attempt's sandbox result has `fix_verified` true — the self-reported
flags (which `specVerifies` never consults) alone never produce
`verified`. -/
theorem claim_C2_sandbox_result_authoritative :
    (∀ (isFinal : Bool) (a : AttemptSpec) (st : PipeState) (sr sv : Bool) (r : SandboxResult),
        a.inv = InvOutcome.ok sr sv → a.sb = SbOutcome.ok r →
        (stepState (runAttempt isFinal a st)).sandbox_reproduced = some r.reproduced ∧
        (stepState (runAttempt isFinal a st)).sandbox_fix_verified = some r.fix_verified) ∧
    (∀ (specs : List AttemptSpec) (st0 : PipeState), specs ≠ [] →
        ((runPipeline specs st0).status = "verified" ↔ specVerifies specs = true)) :=
  ⟨fun isFinal a st sr sv r hinv hsb => runAttempt_overwrites_flags isFinal a st sr sv r hinv hsb,
   fun specs st0 h => runPipeline_verified_iff specs st0 h⟩

/-- Concrete instance of claim C2: the agent self-reports
`fix_verified = True` but the sandbox result says false; the stored flags
become the sandbox's and the incident does not reach `verified`. -/
theorem claim_C2_witness :
    ((stepState (runAttempt true ⟨InvOutcome.ok true true, SbOutcome.ok ⟨true, false, "out"⟩⟩
        initPipeState)).sandbox_reproduced = some true ∧
     (stepState (runAttempt true ⟨InvOutcome.ok true true, SbOutcome.ok ⟨true, false, "out"⟩⟩
        initPipeState)).sandbox_fix_verified = some false) ∧
    ((runPipeline [⟨InvOutcome.ok true true, SbOutcome.ok ⟨true, false, "out"⟩⟩]
        initPipeState).status = "verified" ↔
      specVerifies [⟨InvOutcome.ok true true, SbOutcome.ok ⟨true, false, "out"⟩⟩] = true) :=
  ⟨claim_C2_sandbox_result_authoritative.1 true _ initPipeState true true
      ⟨true, false, "out"⟩ rfl rfl,
   claim_C2_sandbox_result_authoritative.2 _ initPipeState (by simp)⟩

/-- Claim C5: an infrastructure error in the sandbox phase on a
non-final attempt does not mark the incident failed — the loop composes
retry feedback and proceeds to the next attempt — while on the final
attempt the status becomes `failed`. Covered for both the exception that
escapes to `_run_pipeline`'s handler (conjuncts 1-3) and the one
`run_sandbox_verification` itself catches and converts to a failed
verification result (conjunct 4). -/
theorem claim_C5_infra_error_handling :
    (∀ (a : AttemptSpec) (st : PipeState) (sr sv : Bool) (m : String),
        a.inv = InvOutcome.ok sr sv → a.sb = SbOutcome.raised m →
        stepHalts (runAttempt false a st) = false ∧
        (stepState (runAttempt false a st)).status ≠ "failed" ∧
        (stepState (runAttempt false a st)).retry_context = some (sandboxCrashFeedback m)) ∧
    (∀ (a : AttemptSpec) (rest : List AttemptSpec) (st : PipeState) (sr sv : Bool) (m : String),
        a.inv = InvOutcome.ok sr sv → a.sb = SbOutcome.raised m → rest ≠ [] →
        runPipeline (a :: rest) st = runPipeline rest (stepState (runAttempt false a st))) ∧
    (∀ (a : AttemptSpec) (st : PipeState) (sr sv : Bool) (m : String),
        a.inv = InvOutcome.ok sr sv → a.sb = SbOutcome.raised m →
        stepHalts (runAttempt true a st) = true ∧
        (stepState (runAttempt true a st)).status = "failed") ∧
    (∀ (a : AttemptSpec) (st : PipeState) (sr sv : Bool) (m : String),
        a.inv = InvOutcome.ok sr sv → a.sb = SbOutcome.ok (infraErrorResult m) →
        (stepHalts (runAttempt false a st) = false ∧
          (stepState (runAttempt false a st)).status ≠ "failed" ∧
          ((stepState (runAttempt false a st)).retry_context).isSome = true) ∧
        (stepHalts (runAttempt true a st) = true ∧
          (stepState (runAttempt true a st)).status = "failed")) := by
  refine ⟨?_, ?_, ?_, ?_⟩
  · intro a st sr sv m hinv hsb
    obtain ⟨inv, sb⟩ := a
    cases hinv
    cases hsb
    refine ⟨rfl, ?_, rfl⟩
    intro hq
    have hq2 : "simulating" = "failed" := hq
    exact absurd hq2 (by decide)
  · intro a rest st sr sv m hinv hsb hne
    obtain ⟨inv, sb⟩ := a
    cases hinv
    cases hsb
    cases rest with
    | nil => exact absurd rfl hne
    | cons b bs => rfl
  · intro a st sr sv m hinv hsb
    obtain ⟨inv, sb⟩ := a
    cases hinv
    cases hsb
    exact ⟨rfl, rfl⟩
  · intro a st sr sv m hinv hsb
    obtain ⟨inv, sb⟩ := a
    cases hinv
    cases hsb
    refine ⟨⟨?_, ?_, ?_⟩, rfl, rfl⟩
    · simp [runAttempt, infraErrorResult, stepHalts]
    · simp only [runAttempt, infraErrorResult]
      intro hq
      simp [stepState] at hq
    · simp [runAttempt, infraErrorResult, stepState]

/-- Concrete instance of claim C5: the sandbox raises "modal down" with
one attempt remaining — the loop continues with the crash feedback; on
the final attempt the same error marks the incident failed. -/
theorem claim_C5_witness :
    (stepHalts (runAttempt false ⟨InvOutcome.ok true false, SbOutcome.raised "modal down"⟩
        initPipeState) = false ∧
      (stepState (runAttempt false ⟨InvOutcome.ok true false, SbOutcome.raised "modal down"⟩
        initPipeState)).status ≠ "failed" ∧
      (stepState (runAttempt false ⟨InvOutcome.ok true false, SbOutcome.raised "modal down"⟩
        initPipeState)).retry_context = some (sandboxCrashFeedback "modal down")) ∧
    (stepHalts (runAttempt true ⟨InvOutcome.ok true false, SbOutcome.raised "modal down"⟩
        initPipeState) = true ∧
      (stepState (runAttempt true ⟨InvOutcome.ok true false, SbOutcome.raised "modal down"⟩
        initPipeState)).status = "failed") :=
  ⟨claim_C5_infra_error_handling.1 _ initPipeState true false "modal down" rfl rfl,
   claim_C5_infra_error_handling.2.2.1 _ initPipeState true false "modal down" rfl rfl⟩

end AutoDuty
